import Mathlib

set_option maxRecDepth 100000

/-
Verification development for the live log-embedding system (src/db.py):
normalization, repeat cache, window flusher, batch assembler / metadata
store, and the query path.  Each Python function is shallowly embedded as
an executable Lean definition; character classes model the ASCII fragment
of Python's regex classes (the inputs of interest are ASCII).
-/

namespace Kernolog

/-- ASCII model of the regex class backslash-s (Python whitespace). -/
def isSpace (c : Char) : Bool :=
  c == ' ' || c == '\t' || c == '\n' || c == '\r' || c == '\x0b' || c == '\x0c'

/-- ASCII model of the regex class [A-Z]. -/
def isUpper (c : Char) : Bool := 'A' ≤ c && c ≤ 'Z'

/-- ASCII model of the regex class [a-z]. -/
def isLower (c : Char) : Bool := 'a' ≤ c && c ≤ 'z'

/-- ASCII model of the regex class backslash-d. -/
def isDigit (c : Char) : Bool := '0' ≤ c && c ≤ '9'

/-- Consume a nonempty maximal run of characters satisfying p (the
deterministic reading of a greedy one-class plus in the anchored pattern,
whose neighbouring classes are all disjoint). -/
def chompRun (p : Char → Bool) : List Char → Option (List Char)
  | [] => none
  | c :: rest => if p c then some (rest.dropWhile p) else none

/-- Consume one expected character. -/
def chompChar (x : Char) : List Char → Option (List Char)
  | [] => none
  | c :: rest => if c = x then some rest else none

/-- Parser for TIMESTAMP_HOSTNAME_PATTERN, the anchored regex
caret [A-Z][a-z]{2} s+ d+ s+ d+:d+:d+ s+ S+ s+ of db.py line 50; returns
the remainder after the matched leading timestamp/hostname, or none when
the pattern does not match at the start of the line. -/
def tsParse (l : List Char) : Option (List Char) :=
  match l with
  | c1 :: c2 :: c3 :: rest =>
    if isUpper c1 && isLower c2 && isLower c3 then do
      let r1 ← chompRun isSpace rest
      let r2 ← chompRun isDigit r1
      let r3 ← chompRun isSpace r2
      let r4 ← chompRun isDigit r3
      let r5 ← chompChar ':' r4
      let r6 ← chompRun isDigit r5
      let r7 ← chompChar ':' r6
      let r8 ← chompRun isDigit r7
      let r9 ← chompRun isSpace r8
      let r10 ← chompRun (fun c => !isSpace c) r9
      chompRun isSpace r10
    else none
  | _ => none

/-- TIMESTAMP_HOSTNAME_PATTERN.sub applied to the line (db.py line 70). -/
def tsSubL (l : List Char) : List Char := (tsParse l).getD l

/-- Scanner state machine for PID_PATTERN.sub (db.py line 73): removes
every occurrence of a bracket, a nonempty digit run, and a closing
bracket, scanning left to right exactly as re.sub does.  The second
argument holds the digits of a pending open bracket. -/
def pidAux : List Char → Option (List Char) → List Char
  | [], none => []
  | [], some ds => '[' :: ds
  | c :: rest, none =>
    if c = '[' then pidAux rest (some [])
    else c :: pidAux rest none
  | c :: rest, some ds =>
    if isDigit c then pidAux rest (some (ds ++ [c]))
    else if c = ']' ∧ ds ≠ [] then pidAux rest none
    else if c = '[' then ('[' :: ds) ++ pidAux rest (some [])
    else ('[' :: ds) ++ (c :: pidAux rest none)

/-- PID_PATTERN.sub applied to the line. -/
def pidSubL (l : List Char) : List Char := pidAux l none

/-- WHITESPACE_PATTERN.sub (db.py line 76): each maximal whitespace run
becomes one space.  The Boolean flag records whether the previous
character was whitespace. -/
def collapseAux : Bool → List Char → List Char
  | _, [] => []
  | b, c :: rest =>
    if isSpace c then
      if b then collapseAux true rest else ' ' :: collapseAux true rest
    else c :: collapseAux false rest

/-- WHITESPACE_PATTERN.sub applied to the line. -/
def collapse (l : List Char) : List Char := collapseAux false l

/-- Remove a maximal trailing run of characters satisfying p. -/
def dropTrailing (p : Char → Bool) : List Char → List Char
  | [] => []
  | c :: rest =>
    if (dropTrailing p rest).isEmpty then (if p c then [] else [c])
    else c :: dropTrailing p rest

/-- Python str.strip(): remove leading and trailing whitespace. -/
def pstrip (l : List Char) : List Char :=
  dropTrailing isSpace (l.dropWhile isSpace)

/-- Whether a character list starts with whitespace. -/
def headSpace : List Char → Bool
  | [] => false
  | c :: _ => isSpace c

/-- Whitespace-normal form: every whitespace character is a plain space
and no space is followed by further whitespace (the shape produced by
the whitespace-collapsing substitution). -/
def wsOk : List Char → Bool
  | [] => true
  | c :: rest => (!isSpace c || (c == ' ' && !headSpace rest)) && wsOk rest

/-- normalize_log on character lists: the three substitutions followed by
strip, in the order of db.py lines 70-78. -/
def normalizeL (l : List Char) : List Char :=
  pstrip (collapse (pidSubL (tsSubL l)))

/-- normalize_log (db.py line 55). -/
def normalize_log (s : String) : String := ⟨normalizeL s.data⟩

/-- The timestamp/hostname substitution pass alone, on strings. -/
def tsSubS (s : String) : String := ⟨tsSubL s.data⟩

/-- The PID-marker substitution pass alone, on strings. -/
def pidSubS (s : String) : String := ⟨pidSubL s.data⟩

/-
Ingestion / repeat cache (watch_journalctl, db.py lines 100-117).
The repeat cache is an association list from normalized key to a count;
bump is the dictionary update repeat_cache[n] = repeat_cache.get(n, 0) + 1.
-/

/-- Increment the count of a key in the repeat cache, inserting it with
count 1 when absent (db.py line 117). -/
def bump : List (String × Nat) → String → List (String × Nat)
  | [], k => [(k, 1)]
  | (k', c) :: rest, k =>
    if k' = k then (k', c + 1) :: rest else (k', c) :: bump rest k

/-- Python line.rstrip of the newline character (db.py line 108). -/
def rstripNl (s : String) : String := ⟨dropTrailing (fun c => c == '\n') s.data⟩

/-- One iteration of the watcher loop on a delivered raw line (db.py
lines 108-117): strip the trailing newline, skip empty lines, normalize,
skip lines normalizing to the empty string, otherwise count the key. -/
def ingestLine (cache : List (String × Nat)) (raw : String) : List (String × Nat) :=
  if rstripNl raw = "" then cache
  else if normalize_log (rstripNl raw) = "" then cache
  else bump cache (normalize_log (rstripNl raw))

/-- Sum of all counts held in the repeat cache. -/
def sumCounts (cache : List (String × Nat)) : Nat := (cache.map Prod.snd).sum

/-- A raw line that the watcher actually counts: nonempty after newline
stripping, with a nonempty normalized form. -/
def countedLine (raw : String) : Bool :=
  rstripNl raw != "" && normalize_log (rstripNl raw) != ""

/-
Window flusher (repeat_flusher, db.py lines 134-189).  Timestamps are
modelled as rationals.
-/

/-- A record handed from the window flusher to the work queue: db.py puts
the tuple (next_id, text, current_ts) on log_queue. -/
structure FlushedRecord where
  seq : Nat
  text : String
  ts : ℚ
deriving DecidableEq

/-- The summary string of db.py line 173 for a repeated message. -/
def summaryText (now msg : String) (count : Nat) : String :=
  "⏱ " ++ now ++ " | \"" ++ msg ++ "\" repeated " ++ toString count ++ "x"

/-- One iteration of the flusher's per-item loop (db.py lines 164-176):
an empty message is skipped, a single occurrence is passed through
verbatim, a repeated one becomes the summary string; every emitted record
consumes one sequence id. -/
def emitEntry (nid : Nat) (now : String) (ts : ℚ) (e : String × Nat) :
    List FlushedRecord :=
  if e.1 = "" then []
  else if e.2 = 1 then [⟨nid, e.1, ts⟩]
  else [⟨nid, summaryText now e.1 e.2, ts⟩]

/-- The flusher's loop over one drained cache: emits records in item
order, threading the next_id counter; returns the records together with
the next_id value after the round. -/
def flushRound (nid : Nat) (now : String) (ts : ℚ) :
    List (String × Nat) → List FlushedRecord × Nat
  | [] => ([], nid)
  | e :: rest =>
    (emitEntry nid now ts e ++
        (flushRound (nid + (emitEntry nid now ts e).length) now ts rest).1,
      (flushRound (nid + (emitEntry nid now ts e).length) now ts rest).2)

/-- The drained cache contents and wall-clock strings of one flush tick
(or of the final shutdown flush, which runs the same per-item logic). -/
structure RoundInput where
  now : String
  ts : ℚ
  items : List (String × Nat)

/-- The flusher's whole lifetime starting from a given next_id: a fold of
flushRound over the successive drained caches. -/
def runFlusherFrom (nid : Nat) : List RoundInput → List FlushedRecord × Nat
  | [] => ([], nid)
  | rd :: rest =>
    ((flushRound nid rd.now rd.ts rd.items).1 ++
        (runFlusherFrom (flushRound nid rd.now rd.ts rd.items).2 rest).1,
      (runFlusherFrom (flushRound nid rd.now rd.ts rd.items).2 rest).2)

/-- The flusher's whole lifetime: next_id starts at 0 (db.py line 145);
the final shutdown flush is the last round. -/
def runFlusher (rounds : List RoundInput) : List FlushedRecord :=
  (runFlusherFrom 0 rounds).1

/-
Batch assembler / metadata store (embed_worker.process_batch, db.py
lines 205-232).  The embedding collaborator always succeeds in this
model (the except-branch discards the batch and is not a subject of the
claims); the similarity index is represented by its vector count, which
index.add grows by the batch size.
-/

/-- One metadata entry: the dict {"id": i, "text": txt, "timestamp": t}
appended at db.py line 218. -/
structure MetaEntry where
  id : Nat
  text : String
  timestamp : ℚ
deriving DecidableEq

/-- Maximum number of logs kept in the metadata store (db.py line 33). -/
def MAX_METADATA_SIZE : Nat := 100000

/-- The index vector count together with the metadata store. -/
structure DBState where
  ntotal : Nat
  metadata : List MetaEntry

/-- process_batch (db.py lines 205-232): an empty batch returns at once;
otherwise the batch vectors are added to the index, the entries are
appended to the metadata store, and the store is trimmed from the front
when it exceeds MAX_METADATA_SIZE.  The index itself is never trimmed. -/
def process_batch (st : DBState) (batch : List MetaEntry) : DBState :=
  if batch.isEmpty then st
  else
    { ntotal := st.ntotal + batch.length,
      metadata :=
        if MAX_METADATA_SIZE < (st.metadata ++ batch).length then
          (st.metadata ++ batch).drop
            ((st.metadata ++ batch).length - MAX_METADATA_SIZE)
        else st.metadata ++ batch }

/-
Query path (search_query, db.py lines 258-312).  The embedding model and
the similarity index are black-box collaborators; search returns exactly
k (distance, position) pairs, padding with a negative sentinel position
when fewer than k neighbours exist (spec section 6).  The second
component of the result records which collaborators were invoked.
-/

/-- A vector produced by the embedding collaborator. -/
def Vec : Type := List ℚ

/-- The similarity index collaborator: its vector count and its search
function, which returns one row of exactly k (distance, position)
pairs. -/
structure SimIndex where
  ntotal : Nat
  search : Vec → Nat → List (ℚ × Int)
  search_len : ∀ v k, (search v k).length = k

/-- A collaborator invocation performed by the query path. -/
inductive CollabCall where
  | encode (s : String)
  | isearch (k : Nat)
deriving DecidableEq

/-- Python not q or not q.strip() (db.py line 273): the query is empty or
whitespace-only. -/
def isWS (s : String) : Bool := s.data.all isSpace

/-- Python q.strip() used at db.py line 281. -/
def stripS (s : String) : String := ⟨pstrip s.data⟩

/-- Fixed three-decimal rendering of a rational, modelling the .3f
format of db.py line 306 (binary floating point rounding is not
modelled; no claim depends on the rendered digits). -/
def fmt3 (x : ℚ) : String :=
  (if x < 0 then "-" else "") ++
    toString ((round (x * 1000) : Int).natAbs / 1000) ++ "." ++
    (if (round (x * 1000) : Int).natAbs % 1000 < 10 then "00"
     else if (round (x * 1000) : Int).natAbs % 1000 < 100 then "0"
     else "") ++ toString ((round (x * 1000) : Int).natAbs % 1000)

/-- Rendering of one hit (db.py lines 302-307): raw mode yields the
stored text, any other mode the pretty timestamp/distance/text line. -/
def renderHit (mode : String) (m : MetaEntry) (dist : ℚ) : String :=
  if mode = "raw" then m.text
  else fmt3 m.timestamp ++ " | dist=" ++ fmt3 dist ++ " | " ++ m.text

/-- The loop of db.py lines 296-307: positions outside the metadata
bounds (including the negative sentinel) are skipped, the rest are
rendered.  The in-bounds access metadata[idx] is modelled with getD,
whose default is unreachable under the bounds check. -/
def resolveHits (mode : String) (metadata : List MetaEntry)
    (hits : List (ℚ × Int)) : List String :=
  hits.filterMap fun h =>
    if h.2 < 0 ∨ (metadata.length : Int) ≤ h.2 then none
    else some (renderHit mode (metadata.getD h.2.toNat ⟨0, "", 0⟩) h.1)

/-- db.py line 309: an empty result list becomes the no-match message. -/
def emptyFallback (rs : List String) : List String :=
  if rs.isEmpty then ["No matching results found."] else rs

/-- Python min(k, index.ntotal) at db.py line 289 (k is positive when
this line is reached). -/
def clampK (k : Int) (ntotal : Nat) : Nat := min k.toNat ntotal

/-- search_query (db.py lines 258-312), returning the result list
together with the collaborator calls it performed.  Validation happens
before any collaborator call; the query is embedded once, before the
zero-vector check, exactly as in the source. -/
def search_query (embed : String → Vec) (idx : SimIndex)
    (metadata : List MetaEntry) (q : String) (k : Int) (mode : String) :
    List String × List CollabCall :=
  if isWS q then (["Empty query provided."], [])
  else if k ≤ 0 then (["Invalid k value. Must be positive."], [])
  else if idx.ntotal = 0 then
    (["No logs indexed yet. Please wait for data to accumulate."],
      [CollabCall.encode (stripS q)])
  else
    (emptyFallback (resolveHits mode metadata
        (idx.search (embed (stripS q)) (clampK k idx.ntotal))),
      [CollabCall.encode (stripS q), CollabCall.isearch (clampK k idx.ntotal)])

/-- A trivial embedding collaborator for concrete instantiations. -/
def zeroEmbed : String → Vec := fun _ => []

/-- A concrete empty similarity index. -/
def trivIndex0 : SimIndex where
  ntotal := 0
  search := fun _ k => List.replicate k ((0 : ℚ), (-1 : Int))
  search_len := by intro v k; rw [List.length_replicate]

/-- A concrete similarity index holding three vectors. -/
def trivIndex3 : SimIndex where
  ntotal := 3
  search := fun _ k => List.replicate k ((0 : ℚ), (-1 : Int))
  search_len := by intro v k; rw [List.length_replicate]

/-
Interleaving model for the critical sections of process_batch (db.py
lines 211-224) and search_query (db.py lines 284-308).  Each thread is a
straight-line program over shared state: the writer adds the batch
vectors to the index (db.py line 212, before the lock), then acquires
metadata_lock, appends the metadata entries, trims, and releases; the
reader acquires metadata_lock, observes the index vector count together
with the metadata length (the reads of db.py lines 285-293 all happen
inside the lock), and releases.  Program counters select the next atomic
action; lock acquisition is a no-op while the lock is held by the other
thread.  Only the lengths of the two structures matter to the claim, so
the state tracks them as numbers.
-/

/-- The two threads: the batch-assembler writer and the search reader. -/
inductive Tid where
  | w
  | r
deriving DecidableEq

/-- Shared state of the interleaving model: both thread program
counters, the lock owner, the index vector count, the metadata length,
and the pair observed by the reader once it has read. -/
structure CState where
  wpc : Nat
  rpc : Nat
  lock : Option Tid
  ntotal : Nat
  metaLen : Nat
  obs : Option (Nat × Nat)

/-- One writer step for a batch of size b: pc 0 adds the vectors outside
the lock, pc 1 acquires the lock, pc 2 appends the metadata, pc 3 trims,
pc 4 releases. -/
def wAct (b : Nat) (s : CState) : CState :=
  if s.wpc = 0 then { s with ntotal := s.ntotal + b, wpc := 1 }
  else if s.wpc = 1 then
    (if s.lock = none then { s with lock := some Tid.w, wpc := 2 } else s)
  else if s.wpc = 2 then { s with metaLen := s.metaLen + b, wpc := 3 }
  else if s.wpc = 3 then
    { s with metaLen := min s.metaLen MAX_METADATA_SIZE, wpc := 4 }
  else if s.wpc = 4 then { s with lock := none, wpc := 5 }
  else s

/-- One reader step: pc 0 acquires the lock, pc 1 observes the index
count and the metadata length, pc 2 releases. -/
def rAct (s : CState) : CState :=
  if s.rpc = 0 then
    (if s.lock = none then { s with lock := some Tid.r, rpc := 1 } else s)
  else if s.rpc = 1 then { s with obs := some (s.ntotal, s.metaLen), rpc := 2 }
  else if s.rpc = 2 then { s with lock := none, rpc := 3 }
  else s

/-- Execute one scheduled step. -/
def cstep (b : Nat) (s : CState) (t : Tid) : CState :=
  match t with
  | Tid.w => wAct b s
  | Tid.r => rAct s

/-- Run a schedule from the quiescent state in which the index holds n0
vectors aligned with n0 metadata entries. -/
def runC (b n0 : Nat) (sched : List Tid) : CState :=
  sched.foldl (cstep b) ⟨0, 0, none, n0, n0, none⟩

/-- Invariant of the interleaving model: the shared counters are
determined by the writer's program counter, and any completed
observation lies within the in-flight window. -/
def StInv (b n0 : Nat) (s : CState) : Prop :=
  (s.wpc = 0 → s.ntotal = n0 ∧ s.metaLen = n0) ∧
  ((s.wpc = 1 ∨ s.wpc = 2) → s.ntotal = n0 + b ∧ s.metaLen = n0) ∧
  (3 ≤ s.wpc → s.ntotal = n0 + b ∧ s.metaLen = n0 + b) ∧
  (∀ n m, s.obs = some (n, m) → m ≤ n ∧ n ≤ m + b)

end Kernolog

namespace Kernolog

/-- Claim C4: normalize_log maps the two spec example lines, which differ
only in timestamp, hostname instance and PID, to the same key
"systemd: ollama.service failed". -/
theorem normalize_strips_volatile_fields :
    normalize_log
        "Nov 04 23:58:33 archlinux systemd[1]: ollama.service failed"
      = "systemd: ollama.service failed" ∧
    normalize_log
        "Nov 05 00:01:02 archlinux systemd[17]: ollama.service failed"
      = "systemd: ollama.service failed" := by
  decide

/-- A nonempty batch always grows the index vector count by the batch
size (db.py line 212; the index is never trimmed). -/
theorem process_batch_ntotal (st : DBState) (batch : List MetaEntry)
    (h : batch.isEmpty = false) :
    (process_batch st batch).ntotal = st.ntotal + batch.length := by
  simp [process_batch, h]

/-- A nonempty batch leaves the metadata store at the prior length plus
the batch size, clamped at MAX_METADATA_SIZE (db.py lines 217-224). -/
theorem process_batch_meta_length (st : DBState) (batch : List MetaEntry)
    (h : batch.isEmpty = false) :
    (process_batch st batch).metadata.length
      = min (st.metadata.length + batch.length) MAX_METADATA_SIZE := by
  simp only [process_batch, h, Bool.false_eq_true, if_false]
  by_cases hc : MAX_METADATA_SIZE < (st.metadata ++ batch).length
  · simp only [hc, if_true, List.length_drop]
    rw [List.length_append] at hc ⊢
    omega
  · simp only [hc, if_false]
    rw [List.length_append]
    rw [List.length_append] at hc
    omega

/-- Claim C1 (failing input): processing a one-record batch against a
metadata store already at MAX_METADATA_SIZE with an aligned index leaves
the store trimmed at 100000 entries while the index grows to 100001
vectors, so the index vector count no longer equals the store length. -/
theorem process_batch_overflow_misaligns :
    (process_batch ⟨100000, List.replicate 100000 ⟨0, "", 0⟩⟩
        [⟨1, "x", 0⟩]).ntotal = 100001 ∧
    (process_batch ⟨100000, List.replicate 100000 ⟨0, "", 0⟩⟩
        [⟨1, "x", 0⟩]).metadata.length = 100000 := by
  constructor
  · rw [process_batch_ntotal ⟨100000, List.replicate 100000 ⟨0, "", 0⟩⟩
      [⟨1, "x", 0⟩] rfl]
    rfl
  · have e1 := process_batch_meta_length
      ⟨100000, List.replicate 100000 ⟨0, "", 0⟩⟩ [⟨1, "x", 0⟩] rfl
    refine e1.trans ?_
    have hlen : (List.replicate 100000 (⟨0, "", 0⟩ : MetaEntry)).length
        = 100000 := List.length_replicate 100000 _
    rw [show ((⟨100000, List.replicate 100000 ⟨0, "", 0⟩⟩ :
        DBState).metadata.length) = 100000 from hlen]
    norm_num [MAX_METADATA_SIZE]

/-- Claim C8 (counterexample): a raw line consisting of one space is
observed by the ingestion task but normalizes to the empty string and is
never counted, so the cache count sum falls short of the number of
observed lines. -/
theorem cache_sum_counterexample :
    sumCounts ([" "].foldl ingestLine []) ≠ ([" "] : List String).length := by
  decide

/-- The cache count sum grows by exactly one on each counted line. -/
theorem sumCounts_bump (cache : List (String × Nat)) (k : String) :
    sumCounts (bump cache k) = sumCounts cache + 1 := by
  induction cache with
  | nil => simp [bump, sumCounts]
  | cons e rest ih =>
    rcases e with ⟨k', c⟩
    by_cases h : k' = k <;> simp [bump, h, sumCounts] at * <;> omega

/-- Folding the watcher over any line sequence adds one count per
counted line. -/
theorem sumCounts_foldl (lines : List String) :
    ∀ cache : List (String × Nat),
      sumCounts (lines.foldl ingestLine cache)
        = sumCounts cache + (lines.filter countedLine).length := by
  induction lines with
  | nil => intro cache; simp
  | cons l rest ih =>
    intro cache
    by_cases h1 : rstripNl l = ""
    · have hc : countedLine l = false := by
        simp [countedLine, h1]
      simp [List.foldl_cons, ingestLine, h1, hc, ih]
    · by_cases h2 : normalize_log (rstripNl l) = ""
      · have hc : countedLine l = false := by
          simp [countedLine, h1, h2]
        simp [List.foldl_cons, ingestLine, h1, h2, hc, ih]
      · have hc : countedLine l = true := by
          simp [countedLine, h1, h2]
        simp [List.foldl_cons, ingestLine, h1, h2, hc, ih, sumCounts_bump]
        omega

/-- Claim C8 (amended): between flushes the sum of all counts in the
repeat cache equals the number of raw lines observed since the last
flush that are nonempty after newline stripping and whose normalized
form is nonempty. -/
theorem cache_sum_counts_kept_lines (lines : List String) :
    sumCounts (lines.foldl ingestLine [])
      = (lines.filter countedLine).length := by
  have h := sumCounts_foldl lines []
  simpa [sumCounts] using h

/-- Claim C2 (counterexample): with one in-flight batch of size one, the
schedule in which the writer finishes the index append and the reader
then takes the lock and reads is a legal interleaving, and the search
observes an index holding 1 vector against a metadata store of length 0:
the two appends are not in one common critical section. -/
theorem search_observes_out_of_sync :
    (runC 1 0 [Tid.w, Tid.r, Tid.r]).obs = some (1, 0) ∧ (1 : Nat) ≠ 0 := by
  decide

/-- The interleaving invariant is preserved by every step. -/
theorem stInv_step (b n0 : Nat) (hb : n0 + b ≤ MAX_METADATA_SIZE)
    (s : CState) (t : Tid) (h : StInv b n0 s) :
    StInv b n0 (cstep b s t) := by
  obtain ⟨h0, h12, h3, hobs⟩ := h
  obtain ⟨wpc, rpc, lock, ntotal, metaLen, obs⟩ := s
  simp only [StInv] at h0 h12 h3 hobs ⊢
  cases t
  case w =>
    by_cases e0 : wpc = 0
    · subst e0
      obtain ⟨hn, hm⟩ := h0 rfl
      simp [cstep, wAct, StInv]
      exact ⟨⟨hn, hm⟩, hobs⟩
    · by_cases e1 : wpc = 1
      · subst e1
        obtain ⟨hn, hm⟩ := h12 (Or.inl rfl)
        by_cases el : lock = none
        · simp [cstep, wAct, StInv, el]
          exact ⟨⟨hn, hm⟩, hobs⟩
        · simp [cstep, wAct, StInv, el]
          exact ⟨⟨hn, hm⟩, hobs⟩
      · by_cases e2 : wpc = 2
        · subst e2
          obtain ⟨hn, hm⟩ := h12 (Or.inr rfl)
          simp [cstep, wAct, StInv]
          exact ⟨⟨hn, hm⟩, hobs⟩
        · by_cases e3 : wpc = 3
          · subst e3
            obtain ⟨hn, hm⟩ := h3 (by omega)
            simp [cstep, wAct, StInv]
            refine ⟨⟨hn, by omega⟩, hobs⟩
          · by_cases e4 : wpc = 4
            · subst e4
              obtain ⟨hn, hm⟩ := h3 (by omega)
              simp [cstep, wAct, StInv]
              exact ⟨⟨hn, hm⟩, hobs⟩
            · simp [cstep, wAct, StInv, e0, e1, e2, e3, e4]
              exact ⟨h3, hobs⟩
  case r =>
    by_cases e0 : rpc = 0
    · subst e0
      by_cases el : lock = none
      · simp [cstep, rAct, StInv, el]
        exact ⟨h0, h12, h3, hobs⟩
      · simp [cstep, rAct, StInv, el]
        exact ⟨h0, h12, h3, hobs⟩
    · by_cases e1 : rpc = 1
      · subst e1
        simp [cstep, rAct, StInv]
        have key : metaLen ≤ ntotal ∧ ntotal ≤ metaLen + b := by
          by_cases w0 : wpc = 0
          · obtain ⟨ha, hc⟩ := h0 w0; omega
          · by_cases w1 : wpc = 1
            · obtain ⟨ha, hc⟩ := h12 (Or.inl w1); omega
            · by_cases w2 : wpc = 2
              · obtain ⟨ha, hc⟩ := h12 (Or.inr w2); omega
              · obtain ⟨ha, hc⟩ := h3 (by omega); omega
        exact ⟨h0, h12, h3, key.1, key.2⟩
      · by_cases e2 : rpc = 2
        · subst e2
          simp [cstep, rAct, StInv]
          exact ⟨h0, h12, h3, hobs⟩
        · simp [cstep, rAct, StInv, e0, e1, e2]
          exact ⟨h0, h12, h3, hobs⟩

/-- The interleaving invariant holds after any schedule. -/
theorem stInv_run (b n0 : Nat) (hb : n0 + b ≤ MAX_METADATA_SIZE)
    (sched : List Tid) :
    ∀ s : CState, StInv b n0 s → StInv b n0 (sched.foldl (cstep b) s) := by
  induction sched with
  | nil => intro s h; exact h
  | cons t rest ih =>
    intro s h
    exact ih (cstep b s t) (stInv_step b n0 hb s t h)

/-- Claim C2 (amended): the metadata append and trim and the query
path's reads are serialized by metadata_lock, but process_batch adds the
batch vectors to the index before acquiring that lock, so an interleaved
search can observe the index count strictly ahead of the metadata
length; in every interleaving the observed pair satisfies
metaLen ≤ ntotal ≤ metaLen + batch size. -/
theorem observed_counts_bound (b n0 : Nat) (sched : List Tid) (n m : Nat)
    (hb : n0 + b ≤ MAX_METADATA_SIZE)
    (hobs : (runC b n0 sched).obs = some (n, m)) :
    m ≤ n ∧ n ≤ m + b := by
  have hinit : StInv b n0 ⟨0, 0, none, n0, n0, none⟩ := by
    refine ⟨fun _ => ⟨rfl, rfl⟩, ?_, ?_, ?_⟩
    · intro h; rcases h with h | h <;> simp at h
    · intro h; simp at h
    · intro n m h; simp at h
  have h := stInv_run b n0 hb sched _ hinit
  exact h.2.2.2 n m hobs

/-- Claim C2 (witness for the amended bound): the writer completing its
whole batch before the reader takes the lock yields an in-sync
observation satisfying the bound. -/
theorem observed_counts_bound_check :
    ((0 + 1 ≤ MAX_METADATA_SIZE ∧
        (runC 1 0 [Tid.w, Tid.w, Tid.w, Tid.w, Tid.w,
          Tid.r, Tid.r, Tid.r]).obs = some (1, 1)) ∧
      (1 ≤ 1 ∧ 1 ≤ 1 + 1)) :=
  ⟨⟨by decide, by decide⟩,
    observed_counts_bound 1 0
      [Tid.w, Tid.w, Tid.w, Tid.w, Tid.w, Tid.r, Tid.r, Tid.r] 1 1
      (by decide) (by decide)⟩

/-- Claim C6: a query that is empty or whitespace-only, or a
non-positive k, makes search_query return a single validation message
without invoking the embedding model or the index search (the model is a
total function, so no exception is possible on this path). -/
theorem search_rejects_invalid_input (embed : String → Vec) (idx : SimIndex)
    (metadata : List MetaEntry) (q : String) (k : Int) (mode : String)
    (h : isWS q = true ∨ k ≤ 0) :
    ∃ msg, search_query embed idx metadata q k mode = ([msg], []) := by
  by_cases hq : isWS q
  · exact ⟨"Empty query provided.", by simp [search_query, hq]⟩
  · have hk : k ≤ 0 := by
      rcases h with h | h
      · exact absurd h hq
      · exact h
    exact ⟨"Invalid k value. Must be positive.", by simp [search_query, hq, hk]⟩

/-- Claim C6 (witness): the whitespace-only query " " with k = 5 yields
one validation message and no collaborator calls. -/
theorem search_rejects_invalid_input_check :
    (isWS " " = true ∨ (5 : Int) ≤ 0) ∧
      ∃ msg, search_query zeroEmbed trivIndex0 [] " " 5 "pretty" = ([msg], []) :=
  ⟨Or.inl (by decide),
    search_rejects_invalid_input zeroEmbed trivIndex0 [] " " 5 "pretty"
      (Or.inl (by decide))⟩

/-- Claim C7: for a non-whitespace query and positive k against a
non-empty index, search_query performs the index search with k clamped to
the vector count and returns at most min(k, vector count) results. -/
theorem search_clamps_k (embed : String → Vec) (idx : SimIndex)
    (metadata : List MetaEntry) (q : String) (k : Int) (mode : String)
    (hq : isWS q = false) (hk : 0 < k) (hn : 0 < idx.ntotal) :
    (search_query embed idx metadata q k mode).1.length
        ≤ min k.toNat idx.ntotal ∧
    (search_query embed idx metadata q k mode).2
      = [CollabCall.encode (stripS q),
         CollabCall.isearch (min k.toNat idx.ntotal)] := by
  have hk0 : ¬ k ≤ 0 := by omega
  have hn0 : ¬ idx.ntotal = 0 := by omega
  have hres : (resolveHits mode metadata
      (idx.search (embed (stripS q)) (clampK k idx.ntotal))).length
        ≤ clampK k idx.ntotal := by
    have h1 := List.length_filterMap_le
      (fun h : ℚ × Int =>
        if h.2 < 0 ∨ (metadata.length : Int) ≤ h.2 then none
        else some (renderHit mode (metadata.getD h.2.toNat ⟨0, "", 0⟩) h.1))
      (idx.search (embed (stripS q)) (clampK k idx.ntotal))
    have h2 := idx.search_len (embed (stripS q)) (clampK k idx.ntotal)
    rw [resolveHits]
    omega
  have hmin : 1 ≤ clampK k idx.ntotal := by
    have h1 : 1 ≤ k.toNat := by omega
    have h2 : 1 ≤ idx.ntotal := hn
    rw [clampK]
    omega
  rw [search_query, if_neg (by simp [hq]), if_neg hk0, if_neg hn0]
  refine ⟨?_, rfl⟩
  by_cases he : (resolveHits mode metadata
      (idx.search (embed (stripS q)) (clampK k idx.ntotal))).isEmpty
  · simp only [emptyFallback, he, if_true, reduceIte, List.length_singleton]
    exact le_trans hmin (le_of_eq rfl) |>.trans (by rw [clampK])
  · simp only [emptyFallback, he, Bool.false_eq_true, if_false]
    exact le_trans hres (le_of_eq (by rw [clampK]))

/-- Claim C7 (witness): searching an index of three vectors with k = 1000
returns at most three results and the index is searched with k
clamped to 3. -/
theorem search_clamps_k_check :
    (isWS "error" = false ∧ (0 : Int) < 1000 ∧ 0 < trivIndex3.ntotal) ∧
      ((search_query zeroEmbed trivIndex3 [] "error" 1000 "pretty").1.length
          ≤ min (1000 : Int).toNat trivIndex3.ntotal ∧
        (search_query zeroEmbed trivIndex3 [] "error" 1000 "pretty").2
          = [CollabCall.encode (stripS "error"),
             CollabCall.isearch (min (1000 : Int).toNat trivIndex3.ntotal)]) :=
  ⟨⟨by decide, by decide, by decide⟩,
    search_clamps_k zeroEmbed trivIndex3 [] "error" 1000 "pretty"
      (by decide) (by decide) (by decide)⟩

/-- Claim C10: every display mode other than the exact string "raw" is
rendered exactly like "pretty" (timestamp, distance and text); an
unknown mode is never rejected and changes nothing else. -/
theorem search_unknown_mode_as_pretty (embed : String → Vec)
    (idx : SimIndex) (metadata : List MetaEntry) (q : String) (k : Int)
    (mode : String) (h : mode ≠ "raw") :
    search_query embed idx metadata q k mode
      = search_query embed idx metadata q k "pretty" := by
  have hr : renderHit mode = renderHit "pretty" := by
    funext m d
    rw [renderHit, renderHit, if_neg h, if_neg (by decide)]
  simp [search_query, resolveHits, hr]

/-- Claim C10 (witness): the unrecognized mode "json" behaves exactly
like "pretty". -/
theorem search_unknown_mode_as_pretty_check :
    ("json" ≠ "raw") ∧
      search_query zeroEmbed trivIndex3 [] "error" 5 "json"
        = search_query zeroEmbed trivIndex3 [] "error" 5 "pretty" :=
  ⟨by decide,
    search_unknown_mode_as_pretty zeroEmbed trivIndex3 [] "error" 5 "json"
      (by decide)⟩

/-- Each cache entry emits no record when its key is empty and exactly
one record otherwise. -/
theorem emitEntry_length (nid : Nat) (now : String) (ts : ℚ)
    (e : String × Nat) :
    (emitEntry nid now ts e).length = if e.1 = "" then 0 else 1 := by
  rcases e with ⟨msg, c⟩
  by_cases h1 : msg = "" <;> by_cases h2 : c = 1 <;>
    simp [emitEntry, h1, h2]

/-- Any record emitted for a cache entry carries the sequence id the
entry was processed with. -/
theorem emitEntry_shape (nid : Nat) (now : String) (ts : ℚ)
    (e : String × Nat) :
    emitEntry nid now ts e = [] ∨
      ∃ txt, emitEntry nid now ts e = [⟨nid, txt, ts⟩] := by
  rcases e with ⟨msg, c⟩
  by_cases h1 : msg = "" <;> by_cases h2 : c = 1 <;>
    simp [emitEntry, h1, h2]

/-- One flush round: ids start at the incoming next_id, stay below the
returned next_id, and are strictly increasing in emission order. -/
theorem flushRound_spec (now : String) (ts : ℚ) :
    ∀ (items : List (String × Nat)) (nid : Nat),
      nid ≤ (flushRound nid now ts items).2 ∧
      (∀ r ∈ (flushRound nid now ts items).1,
        nid ≤ r.seq ∧ r.seq < (flushRound nid now ts items).2) ∧
      List.Pairwise (fun a b : FlushedRecord => a.seq < b.seq)
        (flushRound nid now ts items).1 := by
  intro items
  induction items with
  | nil => intro nid; refine ⟨le_refl nid, by simp [flushRound], by simp [flushRound]⟩
  | cons e rest ih =>
    intro nid
    obtain ⟨ih1, ih2, ih3⟩ := ih (nid + (emitEntry nid now ts e).length)
    have hlen : nid ≤ nid + (emitEntry nid now ts e).length := Nat.le_add_right _ _
    refine ⟨?_, ?_, ?_⟩
    · simp only [flushRound]
      omega
    · intro r hr
      simp only [flushRound, List.mem_append] at hr
      rcases hr with hr | hr
      · rcases emitEntry_shape nid now ts e with hsh | ⟨txt, hsh⟩
        · rw [hsh] at hr; simp at hr
        · rw [hsh] at hr
          simp at hr
          subst hr
          have hone : (emitEntry nid now ts e).length = 1 := by rw [hsh]; rfl
          simp only [flushRound]
          constructor
          · exact le_refl nid
          · omega
      · have := ih2 r hr
        simp only [flushRound]
        omega
    · simp only [flushRound]
      rw [List.pairwise_append]
      refine ⟨?_, ih3, ?_⟩
      · rcases emitEntry_shape nid now ts e with hsh | ⟨txt, hsh⟩ <;>
          simp [hsh]
      · intro a ha b hb
        rcases emitEntry_shape nid now ts e with hsh | ⟨txt, hsh⟩
        · rw [hsh] at ha; simp at ha
        · rw [hsh] at ha
          simp at ha
          subst ha
          have hone : (emitEntry nid now ts e).length = 1 := by rw [hsh]; rfl
          have := (ih2 b hb).1
          simp only []
          omega

/-- The whole flusher lifetime from a given next_id: ids start at that
next_id, stay below the final one, and strictly increase in emission
order. -/
theorem runFlusherFrom_spec :
    ∀ (rounds : List RoundInput) (nid : Nat),
      nid ≤ (runFlusherFrom nid rounds).2 ∧
      (∀ r ∈ (runFlusherFrom nid rounds).1,
        nid ≤ r.seq ∧ r.seq < (runFlusherFrom nid rounds).2) ∧
      List.Pairwise (fun a b : FlushedRecord => a.seq < b.seq)
        (runFlusherFrom nid rounds).1 := by
  intro rounds
  induction rounds with
  | nil =>
    intro nid
    refine ⟨le_refl nid, by simp [runFlusherFrom], by simp [runFlusherFrom]⟩
  | cons rd rest ih =>
    intro nid
    obtain ⟨f1, f2, f3⟩ := flushRound_spec rd.now rd.ts rd.items nid
    obtain ⟨ih1, ih2, ih3⟩ := ih (flushRound nid rd.now rd.ts rd.items).2
    refine ⟨?_, ?_, ?_⟩
    · simp only [runFlusherFrom]
      omega
    · intro r hr
      simp only [runFlusherFrom, List.mem_append] at hr
      rcases hr with hr | hr
      · have := f2 r hr
        simp only [runFlusherFrom]
        omega
      · have := ih2 r hr
        simp only [runFlusherFrom]
        omega
    · simp only [runFlusherFrom]
      rw [List.pairwise_append]
      refine ⟨f3, ih3, ?_⟩
      intro a ha b hb
      have h1 := (f2 a ha).2
      have h2 := (ih2 b hb).1
      omega

/-- Claim C9: over the whole process lifetime, the final shutdown flush
included as the last round, the sequence ids of the emitted
FlushedRecords are strictly increasing in emission order, hence never
reused. -/
theorem sequence_ids_strictly_increasing (rounds : List RoundInput) :
    List.Pairwise (· < ·) ((runFlusher rounds).map FlushedRecord.seq) := by
  rw [List.pairwise_map]
  exact (runFlusherFrom_spec rounds 0).2.2

/-- One flush round emits exactly one record per nonempty-key cache
entry. -/
theorem flushRound_length (now : String) (ts : ℚ) :
    ∀ (items : List (String × Nat)) (nid : Nat),
      (flushRound nid now ts items).1.length
        = (items.filter fun e => e.1 != "").length := by
  intro items
  induction items with
  | nil => intro nid; simp [flushRound]
  | cons e rest ih =>
    intro nid
    by_cases h : e.1 = ""
    · simp [flushRound, List.length_append, emitEntry_length, h, ih]
    · simp [flushRound, List.length_append, emitEntry_length, h, ih]
      omega

/-- Claim C5: a cache entry holding a nonempty key seen n >= 1 times in
the window emits exactly one FlushedRecord; for n = 1 its text is the
key verbatim, for n > 1 its text contains the literal substring
"repeated <n>x"; and over a whole drained cache exactly one record is
emitted per nonempty-key entry. -/
theorem flusher_one_record_per_key (nid : Nat) (now : String) (ts : ℚ)
    (k : String) (n : Nat) (items : List (String × Nat))
    (hk : k ≠ "") (hn : 1 ≤ n) :
    (∃ r, emitEntry nid now ts (k, n) = [r] ∧
      (n = 1 → r.text = k) ∧
      (1 < n → ∃ s t : String,
        r.text = s ++ ("repeated " ++ toString n ++ "x") ++ t)) ∧
    (flushRound nid now ts items).1.length
      = (items.filter fun e => e.1 != "").length := by
  refine ⟨?_, flushRound_length now ts items nid⟩
  by_cases h1 : n = 1
  · subst h1
    exact ⟨⟨nid, k, ts⟩, by simp [emitEntry, hk], fun _ => rfl,
      fun h => absurd h (by omega)⟩
  · refine ⟨⟨nid, summaryText now k n, ts⟩, by simp [emitEntry, hk, h1],
      fun h => absurd h h1, fun _ => ?_⟩
    refine ⟨"⏱ " ++ now ++ " | \"" ++ k ++ "\" ", "", ?_⟩
    have hlit : ("\" " ++ "repeated " : String) = "\" repeated " := by decide
    show summaryText now k n = _
    rw [summaryText]
    simp only [String.append_assoc, String.append_empty]
    rw [← hlit, String.append_assoc]

/-- Claim C5 (witness): the key "a" counted twice emits one summary
record whose text contains "repeated 2x". -/
theorem flusher_one_record_per_key_check :
    (("a" : String) ≠ "" ∧ 1 ≤ 2) ∧
      ((∃ r, emitEntry 0 "T" 0 ("a", 2) = [r] ∧
        (2 = 1 → r.text = "a") ∧
        (1 < 2 → ∃ s t : String,
          r.text = s ++ ("repeated " ++ toString 2 ++ "x") ++ t)) ∧
      (flushRound 0 "T" 0 [("a", 2)]).1.length
        = ([("a", 2)].filter fun e => e.1 != "").length) :=
  ⟨⟨by decide, by decide⟩,
    flusher_one_record_per_key 0 "T" 0 "a" 2 [("a", 2)]
      (by decide) (by decide)⟩

end Kernolog
namespace Kernolog

/-- Collapsing in skip-mode never starts with whitespace. -/
theorem headSpace_collapseAux_true (l : List Char) :
    headSpace (collapseAux true l) = false := by
  induction l with
  | nil => rfl
  | cons c rest ih =>
    by_cases hc : isSpace c
    · simp [collapseAux, hc, ih]
    · simp [collapseAux, hc, headSpace]

/-- The output of the whitespace-collapsing substitution is
whitespace-normal. -/
theorem wsOk_collapseAux (l : List Char) : ∀ b, wsOk (collapseAux b l) = true := by
  induction l with
  | nil => intro b; rfl
  | cons c rest ih =>
    intro b
    by_cases hc : isSpace c
    · cases b
      · simp [collapseAux, hc, wsOk, headSpace_collapseAux_true, ih]
      · simp [collapseAux, hc, ih]
    · simp [collapseAux, hc, wsOk, ih]

/-- Whitespace-normality passes to the tail left by dropWhile. -/
theorem wsOk_dropWhile (l : List Char) (h : wsOk l = true) :
    wsOk (l.dropWhile isSpace) = true := by
  induction l with
  | nil => exact h
  | cons c rest ih =>
    simp only [wsOk, Bool.and_eq_true] at h
    by_cases hc : isSpace c
    · simp only [List.dropWhile, hc, if_true, reduceIte]
      exact ih h.2
    · simp only [List.dropWhile, hc, if_false, Bool.false_eq_true, reduceIte]
      simp [wsOk, h.1, h.2]

/-- Whitespace-normality restricts to an append's left part. -/
theorem wsOk_append_left (l₁ : List Char) : ∀ l₂, wsOk (l₁ ++ l₂) = true →
    wsOk l₁ = true := by
  induction l₁ with
  | nil => intro l₂ h; rfl
  | cons c l₁ ih =>
    intro l₂ h
    simp only [List.cons_append, wsOk, Bool.and_eq_true] at h
    obtain ⟨hc, ht⟩ := h
    simp only [wsOk, Bool.and_eq_true]
    refine ⟨?_, ih l₂ ht⟩
    cases l₁ with
    | nil =>
      simp only [Bool.or_eq_true, Bool.and_eq_true] at hc ⊢
      rcases hc with hc | hc
      · exact Or.inl hc
      · exact Or.inr ⟨hc.1, rfl⟩
    | cons d l₁ =>
      simpa [headSpace] using hc

/-- dropTrailing returns the input minus some trailing part. -/
theorem dropTrailing_app (p : Char → Bool) (l : List Char) :
    ∃ t, l = dropTrailing p l ++ t := by
  induction l with
  | nil => exact ⟨[], rfl⟩
  | cons c rest ih =>
    obtain ⟨t, ht⟩ := ih
    by_cases hr : (dropTrailing p rest).isEmpty
    · have hrest : dropTrailing p rest = [] := by
        cases hh : dropTrailing p rest
        · rfl
        · rw [hh] at hr; simp at hr
      by_cases hp : p c
      · refine ⟨c :: rest, ?_⟩
        simp [dropTrailing, hrest, hp]
      · refine ⟨rest, ?_⟩
        simp [dropTrailing, hrest, hp]
    · refine ⟨t, ?_⟩
      simp only [dropTrailing, hr, Bool.false_eq_true, if_false, reduceIte]
      rw [List.cons_append, ← ht]

/-- Whitespace-normality is preserved by dropTrailing. -/
theorem wsOk_dropTrailing (p : Char → Bool) (l : List Char)
    (h : wsOk l = true) : wsOk (dropTrailing p l) = true := by
  obtain ⟨t, ht⟩ := dropTrailing_app p l
  rw [ht] at h
  exact wsOk_append_left _ _ h

/-- dropWhile of whitespace leaves no leading whitespace. -/
theorem headSpace_dropWhile (l : List Char) :
    headSpace (l.dropWhile isSpace) = false := by
  induction l with
  | nil => rfl
  | cons c rest ih =>
    by_cases hc : isSpace c
    · simpa [List.dropWhile, hc] using ih
    · simp [List.dropWhile, hc, headSpace]

/-- A list with no leading whitespace is fixed by dropWhile. -/
theorem dropWhile_of_headSpace_false (l : List Char)
    (h : headSpace l = false) : l.dropWhile isSpace = l := by
  cases l with
  | nil => rfl
  | cons c rest =>
    simp only [headSpace] at h
    simp [List.dropWhile, h]

/-- dropTrailing keeps the head character when its result is nonempty. -/
theorem headSpace_dropTrailing (p : Char → Bool) (l : List Char)
    (h : dropTrailing p l ≠ []) :
    headSpace (dropTrailing p l) = headSpace l := by
  obtain ⟨t, ht⟩ := dropTrailing_app p l
  cases hh : dropTrailing p l with
  | nil => exact absurd hh h
  | cons c r =>
    rw [hh] at ht
    rw [ht]
    simp [headSpace]

/-- dropTrailing is idempotent. -/
theorem dropTrailing_idem (p : Char → Bool) (l : List Char) :
    dropTrailing p (dropTrailing p l) = dropTrailing p l := by
  induction l with
  | nil => rfl
  | cons c rest ih =>
    by_cases hr : (dropTrailing p rest).isEmpty
    · have hrest : dropTrailing p rest = [] := by
        cases hh : dropTrailing p rest
        · rfl
        · rw [hh] at hr; simp at hr
      by_cases hp : p c
      · simp [dropTrailing, hrest, hp]
      · simp [dropTrailing, hrest, hp]
    · simp only [dropTrailing, hr, Bool.false_eq_true, if_false, reduceIte]
      simp only [dropTrailing, ih]
      simp [hr]

/-- Skip-mode and emit-mode collapsing agree when there is no leading
whitespace. -/
theorem collapseAux_true_eq_false (l : List Char)
    (h : headSpace l = false) : collapseAux true l = collapseAux false l := by
  cases l with
  | nil => rfl
  | cons c rest =>
    simp only [headSpace] at h
    simp [collapseAux, h]

/-- A whitespace-normal list is fixed by the whitespace-collapsing
substitution. -/
theorem collapse_of_wsOk (l : List Char) : wsOk l = true → collapse l = l := by
  simp only [collapse]
  induction l with
  | nil => intro _; rfl
  | cons c rest ih =>
    intro h
    simp only [wsOk, Bool.and_eq_true] at h
    obtain ⟨hc, ht⟩ := h
    by_cases hs : isSpace c
    · simp only [Bool.or_eq_true, Bool.and_eq_true, Bool.not_eq_true] at hc
      rcases hc with hc | hc
      · rw [hs] at hc; simp at hc
      · obtain ⟨hsp, hhd⟩ := hc
        have hc' : c = ' ' := eq_of_beq hsp
        subst hc'
        have hhd' : headSpace rest = false := by simpa using hhd
        simp only [collapseAux, hs, if_true, reduceIte]
        rw [collapseAux_true_eq_false rest hhd', ih ht]
        simp
    · simp only [collapseAux, hs, Bool.false_eq_true, if_false, reduceIte]
      rw [ih ht]

/-- Claim C3 (counterexample): normalization is not idempotent; a line
with one leading space defeats the start-anchored timestamp pattern on
the first pass, and the second pass then strips the now-exposed
timestamp/hostname region. -/
theorem normalize_not_idempotent :
    normalize_log (normalize_log
        " Nov 04 23:58:33 archlinux systemd[1]: ollama.service failed")
      ≠ normalize_log
        " Nov 04 23:58:33 archlinux systemd[1]: ollama.service failed" := by
  decide

/-- Claim C3 (amended): normalize_log is idempotent on every input whose
normalized form is left unchanged by the timestamp/hostname substitution
and by the PID substitution (the whitespace collapse and the strip are
always idempotent); without that stability the second application can
strip further, as the counterexample shows. -/
theorem normalize_idempotent_of_stable (x : String)
    (h1 : tsSubS (normalize_log x) = normalize_log x)
    (h2 : pidSubS (normalize_log x) = normalize_log x) :
    normalize_log (normalize_log x) = normalize_log x := by
  have hd1 : tsSubL (normalize_log x).data = (normalize_log x).data :=
    congrArg String.data h1
  have hd2 : pidSubL (normalize_log x).data = (normalize_log x).data :=
    congrArg String.data h2
  have hyd : (normalize_log x).data
      = dropTrailing isSpace
          ((collapse (pidSubL (tsSubL x.data))).dropWhile isSpace) := rfl
  have hws : wsOk (normalize_log x).data = true := by
    rw [hyd]
    exact wsOk_dropTrailing _ _ (wsOk_dropWhile _ (wsOk_collapseAux _ false))
  have hhd : headSpace (normalize_log x).data = false := by
    rw [hyd]
    by_cases hne : dropTrailing isSpace
        ((collapse (pidSubL (tsSubL x.data))).dropWhile isSpace) = []
    · rw [hne]; rfl
    · rw [headSpace_dropTrailing _ _ hne]
      exact headSpace_dropWhile _
  apply String.ext
  show pstrip (collapse (pidSubL (tsSubL (normalize_log x).data)))
      = (normalize_log x).data
  rw [hd1, hd2, collapse_of_wsOk _ hws]
  show dropTrailing isSpace ((normalize_log x).data.dropWhile isSpace)
      = (normalize_log x).data
  rw [dropWhile_of_headSpace_false _ hhd]
  rw [hyd]
  exact dropTrailing_idem _ _

/-- Claim C3 (witness): the normalized form of the first spec example is
stable under both substitutions, and normalizing it again changes
nothing. -/
theorem normalize_idempotent_of_stable_check :
    (tsSubS (normalize_log
          "Nov 04 23:58:33 archlinux systemd[1]: ollama.service failed")
        = normalize_log
          "Nov 04 23:58:33 archlinux systemd[1]: ollama.service failed" ∧
      pidSubS (normalize_log
          "Nov 04 23:58:33 archlinux systemd[1]: ollama.service failed")
        = normalize_log
          "Nov 04 23:58:33 archlinux systemd[1]: ollama.service failed") ∧
    normalize_log (normalize_log
        "Nov 04 23:58:33 archlinux systemd[1]: ollama.service failed")
      = normalize_log
        "Nov 04 23:58:33 archlinux systemd[1]: ollama.service failed" :=
  ⟨⟨by decide, by decide⟩,
    normalize_idempotent_of_stable _ (by decide) (by decide)⟩

end Kernolog
